import Mathlib

/-!
Verification of the book-recommendation similarity engine
(`src/similarity.py`, class `BookSimilarityEngine`).

The Python code is shallowly embedded below.  Machine text is modelled as
Lean `String` / `List Char` restricted to ASCII (Python's `re` classes
`\w` and `\s` are Unicode-aware; every concrete input considered here is
ASCII, where the two notions agree).  Python floats are modelled as `ℚ`.

The engine delegates vectorisation to scikit-learn's `TfidfVectorizer`
and `cosine_similarity`, which are external library calls.  Their
behaviour is modelled here to the extent the specification describes it:
tokenisation (runs of at least two word characters), English stop-word
removal, unigram+bigram vocabulary construction over the two-document
corpus, the `max_features` cap, and the `ValueError` raised on an empty
vocabulary.  The tf-idf weighting and the square-root normalisation of
the cosine are irrational-valued floating-point computations; the model
returns the rational quantity dot(v,w)^2 / (dot(v,v) * dot(w,w)) over the
raw term-count vectors.  Since the idf weights are strictly positive,
this quantity is zero exactly when the library's similarity is zero, and
it is symmetric exactly when the library's value is, which is all the
claims verified below depend on.
-/

namespace BookRec

/-- Python regex class `\s` (ASCII part): space, tab, newline, carriage
return, vertical tab and form feed. -/
def pyIsSpace (c : Char) : Bool :=
  c = ' ' || c = '\t' || c = '\n' || c = '\r' || c = '\x0b' || c = '\x0c'

/-- Python regex class `\w` (ASCII part): letters, digits and the
underscore. -/
def pyIsWordChar (c : Char) : Bool :=
  c.isAlpha || c.isDigit || c = '_'

/-- One character step of `re.sub(r"[^\w\s]", " ", text)`: a character
that is neither a word character nor whitespace becomes a single space. -/
def substituteChar (c : Char) : Char :=
  if pyIsWordChar c || pyIsSpace c then c else ' '

/-- The effect of `re.sub(r"\s+", " ", text)`: every maximal run of
whitespace characters is replaced by one space. -/
def collapseWs : List Char → List Char
  | [] => []
  | c :: rest =>
    if pyIsSpace c then ' ' :: collapseWs (rest.dropWhile pyIsSpace)
    else c :: collapseWs rest
termination_by l => l.length
decreasing_by
  · exact Nat.lt_succ_of_le (List.Sublist.length_le (List.dropWhile_sublist _))
  · exact Nat.lt_succ_self _

/-- Python `str.strip()` for whitespace: drop leading and trailing
whitespace characters. -/
def stripWs (l : List Char) : List Char :=
  ((l.dropWhile pyIsSpace).reverse.dropWhile pyIsSpace).reverse

/-- Drop trailing whitespace only (the right half of `str.strip()`). -/
def dropTrailingWs (l : List Char) : List Char :=
  (l.reverse.dropWhile pyIsSpace).reverse

/-- Canonical form reached after substitution and collapsing: word
characters are kept, every maximal run of non-word characters becomes a
single space.  Intermediate notion used to relate the code's
substitution/collapse pipeline to the run characterisation. -/
def canonWs : List Char → List Char
  | [] => []
  | c :: t =>
    if pyIsWordChar c then c :: canonWs t
    else ' ' :: canonWs (t.dropWhile (fun x => !pyIsWordChar x))
termination_by l => l.length
decreasing_by
  · exact Nat.lt_succ_self _
  · exact Nat.lt_succ_of_le (List.Sublist.length_le (List.dropWhile_sublist _))

/-- Body of `BookSimilarityEngine.preprocess_text` on the character list:
lower-case, substitute non-word non-space characters by a space, collapse
whitespace runs, strip. -/
def preprocessCore (l : List Char) : List Char :=
  stripWs (collapseWs ((l.map Char.toLower).map substituteChar))

/-- `BookSimilarityEngine.preprocess_text`.  `if not text: return ""`
is the `isEmpty` branch. -/
def preprocess_text (s : String) : String :=
  if s.isEmpty then String.mk [] else String.mk (preprocessCore s.data)

/-- Maximal runs of characters satisfying `p`, in order; separator
characters are dropped.  Used to state the specification-level
characterisation of `preprocess_text`. -/
def splitRuns (p : Char → Bool) : List Char → List (List Char)
  | [] => []
  | c :: rest =>
    if p c then (c :: rest.takeWhile p) :: splitRuns p (rest.dropWhile p)
    else splitRuns p rest
termination_by l => l.length
decreasing_by
  · exact Nat.lt_succ_of_le (List.Sublist.length_le (List.dropWhile_sublist _))
  · exact Nat.lt_succ_self _

/-- Join word runs with a single space between consecutive runs. -/
def joinRuns : List (List Char) → List Char
  | [] => []
  | [w] => w
  | w :: ws => w ++ ' ' :: joinRuns ws

/-- The word characters of the claim taken literally: letters and digits
only (the claim's wording omits the underscore that Python's `\w`
matches). -/
def claimWordChar (c : Char) : Bool :=
  c.isAlpha || c.isDigit

/-- The preprocessing transformation exactly as the claim words it:
lower-case, replace every character that is not a letter, digit or
whitespace by a single space, collapse whitespace runs, trim.  Stated in
the equivalent normal form: the letter/digit runs joined by single
spaces. -/
def preprocessClaimed (s : String) : String :=
  String.mk (joinRuns (splitRuns claimWordChar (s.data.map Char.toLower)))

/-- The amended transformation: as the claim, but with the underscore
counted as a word character, matching Python's `\w`. -/
def preprocessDescribed (s : String) : String :=
  String.mk (joinRuns (splitRuns pyIsWordChar (s.data.map Char.toLower)))

/-- A book record as consumed by the engine.  The Python code reads the
fields with `dict.get` and a falsy default (`""`, `[]`, `0`), so an
absent field and the falsy default are indistinguishable to the engine;
the model stores the defaulted value directly.  `id` is required by the
data model and is used for self-exclusion and score keys. -/
structure Book where
  id : String
  title : String := String.mk []
  authors : List String := []
  description : String := String.mk []
  categories : List String := []
  average_rating : ℚ := 0
  page_count : ℚ := 0
deriving DecidableEq

/-- Separator used by Python's `" ".join`. -/
def spaceSep : String := String.mk [' ']

/-- `BookSimilarityEngine._get_combined_text`: title, joined authors,
description and joined categories; raw-empty fields are skipped, the
rest are preprocessed and joined with single spaces. -/
def get_combined_text (b : Book) : String :=
  String.intercalate spaceSep
    (([b.title, String.intercalate spaceSep b.authors, b.description,
        String.intercalate spaceSep b.categories].filter
      (fun t => !t.isEmpty)).map preprocess_text)

/-- `BookSimilarityEngine.calculate_metadata_similarity`: the additive
blend of category overlap (0.4), author overlap (0.3), rating closeness
(0.2) and page-count closeness (0.1); each term is guarded by Python
truthiness of both fields. -/
def calculate_metadata_similarity (book1 book2 : Book) : ℚ :=
  (if book1.categories.toFinset.Nonempty ∧ book2.categories.toFinset.Nonempty then
      0.4 * ((book1.categories.toFinset ∩ book2.categories.toFinset).card : ℚ) /
        (max (book1.categories.toFinset ∪ book2.categories.toFinset).card 1 : ℕ)
    else 0)
  + (if book1.authors.toFinset.Nonempty ∧ book2.authors.toFinset.Nonempty then
      0.3 * ((book1.authors.toFinset ∩ book2.authors.toFinset).card : ℚ) /
        (max (book1.authors.toFinset ∪ book2.authors.toFinset).card 1 : ℕ)
    else 0)
  + (if book1.average_rating ≠ 0 ∧ book2.average_rating ≠ 0 then
      0.2 * (1 - |book1.average_rating - book2.average_rating| / 5)
    else 0)
  + (if book1.page_count ≠ 0 ∧ book2.page_count ≠ 0 then
      0.1 * (1 - |book1.page_count - book2.page_count| /
        max book1.page_count book2.page_count)
    else 0)

/-- Model of scikit-learn's frozen English stop-word list
(`sklearn.feature_extraction.text.ENGLISH_STOP_WORDS`), used because the
vectorizer is constructed with the english stop-word setting.  The claims
verified here do not depend on the exact membership of this list. -/
def englishStopWords : List String :=
  ["a", "about", "above", "across", "after", "afterwards", "again",
   "against", "all", "almost", "alone", "along", "already", "also",
   "although", "always", "am", "among", "amongst", "amount", "an", "and",
   "another", "any", "anyhow", "anyone", "anything", "anyway", "anywhere",
   "are", "around", "as", "at", "back", "be", "became", "because",
   "become", "becomes", "becoming", "been", "before", "beforehand",
   "behind", "being", "below", "beside", "besides", "between", "beyond",
   "bill", "both", "bottom", "but", "by", "call", "can", "cannot", "cant",
   "co", "con", "could", "couldnt", "cry", "de", "describe", "detail",
   "do", "done", "down", "due", "during", "each", "eg", "eight", "either",
   "eleven", "else", "elsewhere", "empty", "enough", "etc", "even",
   "ever", "every", "everyone", "everything", "everywhere", "except",
   "few", "fifteen", "fifty", "fill", "find", "fire", "first", "five",
   "for", "former", "formerly", "forty", "found", "four", "from", "front",
   "full", "further", "get", "give", "go", "had", "has", "hasnt", "have",
   "he", "hence", "her", "here", "hereafter", "hereby", "herein",
   "hereupon", "hers", "herself", "him", "himself", "his", "how",
   "however", "hundred", "i", "ie", "if", "in", "inc", "indeed",
   "interest", "into", "is", "it", "its", "itself", "keep", "last",
   "latter", "latterly", "least", "less", "ltd", "made", "many", "may",
   "me", "meanwhile", "might", "mill", "mine", "more", "moreover", "most",
   "mostly", "move", "much", "must", "my", "myself", "name", "namely",
   "neither", "never", "nevertheless", "next", "nine", "no", "nobody",
   "none", "noone", "nor", "not", "nothing", "now", "nowhere", "of",
   "off", "often", "on", "once", "one", "only", "onto", "or", "other",
   "others", "otherwise", "our", "ours", "ourselves", "out", "over",
   "own", "part", "per", "perhaps", "please", "put", "rather", "re",
   "same", "see", "seem", "seemed", "seeming", "seems", "serious",
   "several", "she", "should", "show", "side", "since", "sincere", "six",
   "sixty", "so", "some", "somehow", "someone", "something", "sometime",
   "sometimes", "somewhere", "still", "such", "system", "take", "ten",
   "than", "that", "the", "their", "them", "themselves", "then", "thence",
   "there", "thereafter", "thereby", "therefore", "therein", "thereupon",
   "these", "they", "thick", "thin", "third", "this", "those", "though",
   "three", "through", "throughout", "thru", "thus", "to", "together",
   "too", "top", "toward", "towards", "twelve", "twenty", "two", "un",
   "under", "until", "up", "upon", "us", "very", "via", "was", "we",
   "well", "were", "what", "whatever", "when", "whence", "whenever",
   "where", "whereafter", "whereas", "whereby", "wherein", "whereupon",
   "wherever", "whether", "which", "while", "whither", "who", "whoever",
   "whole", "whom", "whose", "why", "will", "with", "within", "without",
   "would", "yet", "you", "your", "yours", "yourself", "yourselves"]

/-- The vectorizer's tokenisation: lower-case, then every maximal run of
word characters of length at least two is a token (the default token
pattern matches two-or-more word characters). -/
def tokenize (s : String) : List String :=
  ((splitRuns pyIsWordChar (s.data.map Char.toLower)).filter
    (fun r => 2 ≤ r.length)).map String.mk

/-- Tokens remaining after stop-word removal. -/
def filteredTokens (s : String) : List String :=
  (tokenize s).filter (fun t => !(englishStopWords.contains t))

/-- Adjacent-pair bigrams of a token stream, joined by a space. -/
def bigrams : List String → List String
  | a :: b :: rest => (a ++ spaceSep ++ b) :: bigrams (b :: rest)
  | _ => []

/-- All n-grams of one document for the range (1, 2): the unigrams
followed by the bigrams, both built from the stop-word-filtered token
stream. -/
def docNgrams (s : String) : List String :=
  filteredTokens s ++ bigrams (filteredTokens s)

/-- Feature-selection preference used by `max_features`: higher total
count first, ties broken by term order. -/
def featPref (counts : String → ℕ) (x y : String) : Prop :=
  counts y < counts x ∨ (counts x = counts y ∧ x ≤ y)

instance (counts : String → ℕ) : DecidableRel (featPref counts) := fun x y => by
  unfold featPref; infer_instance

instance (counts : String → ℕ) : IsTotal String (featPref counts) :=
  ⟨fun a b => by
    unfold featPref
    rcases lt_trichotomy (counts a) (counts b) with h | h | h
    · exact Or.inr (Or.inl h)
    · rcases le_total a b with hab | hab
      · exact Or.inl (Or.inr ⟨h, hab⟩)
      · exact Or.inr (Or.inr ⟨h.symm, hab⟩)
    · exact Or.inl (Or.inl h)⟩

instance (counts : String → ℕ) : IsTrans String (featPref counts) :=
  ⟨fun a b c hab hbc => by
    unfold featPref at *
    rcases hab with h1 | ⟨h1, h1l⟩ <;> rcases hbc with h2 | ⟨h2, h2l⟩
    · exact Or.inl (h2.trans h1)
    · exact Or.inl (h2 ▸ h1)
    · exact Or.inl (h1 ▸ h2)
    · exact Or.inr ⟨h1.trans h2, h1l.trans h2l⟩⟩

instance (counts : String → ℕ) : IsAntisymm String (featPref counts) :=
  ⟨fun a b hab hba => by
    unfold featPref at *
    rcases hab with h1 | ⟨h1, h1l⟩ <;> rcases hba with h2 | ⟨h2, h2l⟩
    · exact absurd (h1.trans h2) (lt_irrefl _)
    · exact absurd h1 (h2 ▸ lt_irrefl _)
    · exact absurd h2 (h1 ▸ lt_irrefl _)
    · exact le_antisymm h1l h2l⟩

/-- The fitted vocabulary over the two-document corpus: the distinct
n-grams of both documents, capped to the 5000 most frequent
(`max_features=5000`, ties by term order), listed alphabetically. -/
def vocabOf (d1 d2 : List String) : List String :=
  List.insertionSort (· ≤ ·)
    ((List.insertionSort (featPref (fun t => List.count t (d1 ++ d2)))
        ((d1 ++ d2).dedup)).take 5000)

/-- The raw term-count vector of a document over a vocabulary. -/
def countVec (vocab doc : List String) : List ℚ :=
  vocab.map (fun t => (List.count t doc : ℚ))

/-- Dot product of two rational vectors. -/
def dotQ (v w : List ℚ) : ℚ :=
  (List.zipWith (· * ·) v w).sum

/-- Model of `cosine_similarity` on the two rows, as explained at the top
of the file: zero when either vector is zero, otherwise the rational
quantity dot(v,w)^2 / (dot(v,v) * dot(w,w)), which shares the zero set
and the symmetry of the floating-point cosine. -/
def qcosSq (v w : List ℚ) : ℚ :=
  if dotQ v v = 0 ∨ dotQ w w = 0 then 0
  else dotQ v w * dotQ v w / (dotQ v v * dotQ w w)

/-- `BookSimilarityEngine.calculate_content_similarity`: combine the two
texts, fit the vectorizer on the pair, return the similarity of the two
rows; `fit_transform` raises `ValueError` exactly when the vocabulary is
empty, and the `except ValueError` branch returns `0.0`. -/
def calculate_content_similarity (book1 book2 : Book) : ℚ :=
  if docNgrams (get_combined_text book1) = [] ∧ docNgrams (get_combined_text book2) = []
  then 0
  else
    qcosSq
      (countVec
        (vocabOf (docNgrams (get_combined_text book1)) (docNgrams (get_combined_text book2)))
        (docNgrams (get_combined_text book1)))
      (countVec
        (vocabOf (docNgrams (get_combined_text book1)) (docNgrams (get_combined_text book2)))
        (docNgrams (get_combined_text book2)))

/-- `BookSimilarityEngine.CONTENT_WEIGHT`. -/
def CONTENT_WEIGHT : ℚ := 0.6

/-- `BookSimilarityEngine.METADATA_WEIGHT`. -/
def METADATA_WEIGHT : ℚ := 0.4

/-- The combined score computed in the loop body of
`find_similar_books`. -/
def combinedScore (target candidate : Book) : ℚ :=
  calculate_content_similarity target candidate * CONTENT_WEIGHT
  + calculate_metadata_similarity target candidate * METADATA_WEIGHT

/-- Descending comparison on the score component, the key order of
`similarities.sort(key=lambda x: x[1], reverse=True)`.  Python's sort is
stable, which the stable `insertionSort` models. -/
def byScoreDesc {α : Type} (a b : α × ℚ) : Prop := b.2 ≤ a.2

instance {α : Type} : DecidableRel (@byScoreDesc α) := fun a b => by
  unfold byScoreDesc; infer_instance

instance {α : Type} : IsTotal (α × ℚ) byScoreDesc :=
  ⟨fun a b => le_total b.2 a.2⟩

instance {α : Type} : IsTrans (α × ℚ) byScoreDesc :=
  ⟨fun _ _ _ h1 h2 => le_trans h2 h1⟩

/-- Python slicing `l[:n]` for an arbitrary integer `n`: the first `n`
elements when `n` is non-negative, everything but the last `|n|`
elements when `n` is negative. -/
def pySlice {α : Type} (l : List α) (n : ℤ) : List α :=
  if 0 ≤ n then l.take n.toNat else l.take (l.length - (-n).toNat)

/-- The scored candidate list built by the loop of `find_similar_books`:
candidates whose id equals the target's are skipped, the rest are paired
with their combined score, in candidate order. -/
def scoredCandidates (target : Book) (cands : List Book) : List (Book × ℚ) :=
  (cands.filter (fun c => !(c.id = target.id : Bool))).map
    (fun c => (c, combinedScore target c))

/-- `BookSimilarityEngine.find_similar_books`: score, stable-sort
descending, slice to `num_recommendations`. -/
def find_similar_books (target : Book) (cands : List Book)
    (num_recommendations : ℤ) : List (Book × ℚ) :=
  pySlice (List.insertionSort byScoreDesc (scoredCandidates target cands))
    num_recommendations

/-- The `(id, contribution)` pairs accumulated into the `scores`
defaultdict of `get_recommendations`, in iteration order: for every
history book, `find_similar_books` over the full pool, each score divided
by the history length. -/
def historyContributions (user_books cands : List Book) : List (String × ℚ) :=
  user_books.flatMap (fun u =>
    (find_similar_books u cands (cands.length : ℤ)).map
      (fun p => (p.1.id, p.2 / (user_books.length : ℚ))))

/-- The key set of the `scores` defaultdict: ids that received at least
one (possibly zero-valued) contribution. -/
def scoreKeys (user_books cands : List Book) : List String :=
  (historyContributions user_books cands).map Prod.fst

/-- The value `scores[uid]`: the sum of all contributions recorded for
`uid`. -/
def scoresOf (user_books cands : List Book) (uid : String) : ℚ :=
  (((historyContributions user_books cands).filter
      (fun p => (p.1 = uid : Bool))).map Prod.snd).sum

/-- The eligible list built by the comprehension inside `sorted(...)`:
candidates whose id is a key of `scores`, paired with their accumulated
score, in candidate order. -/
def eligibleScored (user_books cands : List Book) : List (Book × ℚ) :=
  (cands.filter (fun b => b.id ∈ scoreKeys user_books cands)).map
    (fun b => (b, scoresOf user_books cands b.id))

/-- `ranked_books`: the eligible list stable-sorted descending by
accumulated score. -/
def rankedCandidates (user_books cands : List Book) : List (Book × ℚ) :=
  List.insertionSort byScoreDesc (eligibleScored user_books cands)

/-- `BookSimilarityEngine.get_recommendations`: slice the ranked list and
return the books only. -/
def get_recommendations (user_books cands : List Book) (n : ℤ) : List Book :=
  (pySlice (rankedCandidates user_books cands) n).map Prod.fst

/-- Category sub-score as the specification's table words it: weight 0.4
times the Jaccard overlap, included only when both category sets are
non-empty. -/
def specCategoryTerm (b1 b2 : Book) : ℚ :=
  if b1.categories.toFinset.Nonempty ∧ b2.categories.toFinset.Nonempty then
    0.4 * ((b1.categories.toFinset ∩ b2.categories.toFinset).card : ℚ) /
      ((b1.categories.toFinset ∪ b2.categories.toFinset).card : ℕ)
  else 0

/-- Author sub-score as the specification's table words it. -/
def specAuthorTerm (b1 b2 : Book) : ℚ :=
  if b1.authors.toFinset.Nonempty ∧ b2.authors.toFinset.Nonempty then
    0.3 * ((b1.authors.toFinset ∩ b2.authors.toFinset).card : ℚ) /
      ((b1.authors.toFinset ∪ b2.authors.toFinset).card : ℕ)
  else 0

/-- Rating sub-score as the specification's table words it. -/
def specRatingTerm (b1 b2 : Book) : ℚ :=
  if b1.average_rating ≠ 0 ∧ b2.average_rating ≠ 0 then
    0.2 * (1 - |b1.average_rating - b2.average_rating| / 5)
  else 0

/-- Length sub-score as the specification's table words it. -/
def specLengthTerm (b1 b2 : Book) : ℚ :=
  if b1.page_count ≠ 0 ∧ b2.page_count ≠ 0 then
    0.1 * (1 - |b1.page_count - b2.page_count| / max b1.page_count b2.page_count)
  else 0

/-- Concrete book with id only; every text field empty, every numeric
field absent. -/
def bkOne : Book := { id := String.mk ['1'] }

/-- Second concrete book with id only. -/
def bkTwo : Book := { id := String.mk ['2'] }

/-- The first example book of the module's `__main__` block. -/
def bkHobbit : Book :=
  { id := String.mk ['1'],
    title := "The Hobbit",
    authors := ["J.R.R. Tolkien"],
    categories := ["Fantasy", "Adventure"],
    description := "A fantasy novel about a hobbit who goes on an adventure.",
    average_rating := 4.5,
    page_count := 300 }

/-- The second example book of the module's `__main__` block. -/
def bkLotr : Book :=
  { id := String.mk ['2'],
    title := "The Lord of the Rings",
    authors := ["J.R.R. Tolkien"],
    categories := ["Fantasy", "Epic"],
    description := "An epic fantasy novel about a quest to destroy a powerful ring.",
    average_rating := 4.7,
    page_count := 1200 }

/-- History book with a rating only; its combined text is empty. -/
def bkH : Book := { id := String.mk ['h'], average_rating := 4 }

/-- Candidate book with a rating only; its combined text is empty. -/
def bkC : Book := { id := String.mk ['c'], average_rating := 4 }

/-- A Python slice `l[:n]` is always an initial segment of `l`. -/
theorem pySlice_eq_take {α : Type} (l : List α) (n : ℤ) :
    pySlice l n = l.take (if 0 ≤ n then n.toNat else l.length - (-n).toNat) := by
  unfold pySlice
  split <;> rfl

/-- A Python slice `l[:n]` is a sublist of `l`. -/
theorem pySlice_sublist {α : Type} (l : List α) (n : ℤ) :
    (pySlice l n).Sublist l := by
  rw [pySlice_eq_take]
  exact List.take_sublist _ _

/-- Every entry of the scored list is a non-self candidate carrying its
combined score. -/
theorem mem_scoredCandidates {t : Book} {cands : List Book} {p : Book × ℚ}
    (hp : p ∈ scoredCandidates t cands) :
    p.1 ∈ cands ∧ ¬ p.1.id = t.id ∧ p.2 = combinedScore t p.1 := by
  unfold scoredCandidates at hp
  obtain ⟨c, hc, rfl⟩ := List.mem_map.mp hp
  have hf := List.mem_filter.mp hc
  refine ⟨hf.1, ?_, rfl⟩
  simpa using hf.2

/-- Every entry of `find_similar_books` comes from the scored list. -/
theorem mem_find_similar {t : Book} {cands : List Book} {n : ℤ} {p : Book × ℚ}
    (hp : p ∈ find_similar_books t cands n) :
    p ∈ scoredCandidates t cands := by
  unfold find_similar_books at hp
  exact (List.perm_insertionSort byScoreDesc _).mem_iff.mp
    ((pySlice_sublist _ _).subset hp)

/-- C1 (amended): `get_recommendations` with an empty reading history
silently returns the empty list; no error of any kind is raised and in
particular no division by zero occurs, because the accumulation loop
body (which contains the division) is never executed. -/
theorem get_recommendations_empty_history (cands : List Book) (n : ℤ) :
    get_recommendations [] cands n = [] := by
  unfold get_recommendations rankedCandidates eligibleScored scoreKeys
    historyContributions
  simp [pySlice]

/-- C1 counterexample: on a concrete non-empty candidate pool the claim
announces an invalid-argument failure, but the embedded
`get_recommendations` is total and evaluates to the empty list — the
silent empty result the claim rules out. -/
theorem get_recommendations_empty_history_counterexample :
    get_recommendations [] [bkLotr] 5 = [] := rfl

/-- C10 counterexample: with a negative requested count the code can
perfectly well return an empty sequence (here: no candidates at all),
contradicting the claim's "nor returns an empty sequence". -/
theorem find_similar_negative_counterexample :
    find_similar_books bkOne [] (-1) = [] := rfl

/-- C10 (amended): for a negative `num_recommendations` no error is
raised and the result is the sorted scored list with its last
`|num_recommendations|` entries removed (Python negative-slice
semantics), hence empty whenever `|num_recommendations|` is at least the
number of scored candidates; the bounded-size equation of the
specification holds only for non-negative counts. -/
theorem find_similar_books_negative_slice (t : Book) (cands : List Book)
    (n : ℤ) (hn : n < 0) :
    find_similar_books t cands n
      = (List.insertionSort byScoreDesc (scoredCandidates t cands)).take
          ((scoredCandidates t cands).length - n.natAbs)
      ∧ (find_similar_books t cands n).length
          = (scoredCandidates t cands).length - n.natAbs := by
  have h1 : ¬ (0 : ℤ) ≤ n := not_le.mpr hn
  have h2 : (-n).toNat = n.natAbs := by omega
  constructor
  · unfold find_similar_books pySlice
    rw [if_neg h1, h2, (List.perm_insertionSort byScoreDesc _).length_eq]
  · unfold find_similar_books pySlice
    rw [if_neg h1, h2, List.length_take,
      (List.perm_insertionSort byScoreDesc _).length_eq]
    omega

/-- Witness for C10 at a concrete book, pool and count. -/
theorem find_similar_books_negative_slice_witness :
    find_similar_books bkOne [bkTwo] (-1)
      = (List.insertionSort byScoreDesc (scoredCandidates bkOne [bkTwo])).take
          ((scoredCandidates bkOne [bkTwo]).length - (-1 : ℤ).natAbs)
      ∧ (find_similar_books bkOne [bkTwo] (-1)).length
          = (scoredCandidates bkOne [bkTwo]).length - (-1 : ℤ).natAbs :=
  find_similar_books_negative_slice bkOne [bkTwo] (-1) (by decide)

/-- C4: no entry of `find_similar_books` ever carries the target's id;
such candidates are filtered out before any similarity computation. -/
theorem find_similar_books_self_exclusion (t : Book) (cands : List Book)
    (n : ℤ) (p : Book × ℚ) (hp : p ∈ find_similar_books t cands n) :
    ¬ p.1.id = t.id :=
  (mem_scoredCandidates (mem_find_similar hp)).2.1

/-- Witness for C4: a pool that does contain the target's id, and a
concrete member of the output. -/
theorem find_similar_books_self_exclusion_witness :
    ¬ ((bkTwo, combinedScore bkOne bkTwo)).1.id = bkOne.id :=
  find_similar_books_self_exclusion bkOne [bkOne, bkTwo] 1
    (bkTwo, combinedScore bkOne bkTwo)
    (by
      have : find_similar_books bkOne [bkOne, bkTwo] 1
          = [(bkTwo, combinedScore bkOne bkTwo)] := rfl
      rw [this]
      exact List.mem_singleton.mpr rfl)

/-- C3: with a non-negative requested count, every returned pair is a
non-self candidate scored `0.6 * content + 0.4 * metadata`, the output is
sorted descending by that score, and its length is the minimum of the
requested count and the number of non-self candidates. -/
theorem find_similar_books_spec (t : Book) (cands : List Book) (n : ℤ)
    (hn : 0 ≤ n) :
    (∀ p ∈ find_similar_books t cands n,
        ¬ p.1.id = t.id ∧
          p.2 = 0.6 * calculate_content_similarity t p.1
              + 0.4 * calculate_metadata_similarity t p.1)
      ∧ List.Sorted byScoreDesc (find_similar_books t cands n)
      ∧ (find_similar_books t cands n).length
          = min n.toNat (cands.filter (fun c => !(c.id = t.id : Bool))).length := by
  refine ⟨?_, ?_, ?_⟩
  · intro p hp
    obtain ⟨-, hne, hs⟩ := mem_scoredCandidates (mem_find_similar hp)
    refine ⟨hne, ?_⟩
    rw [hs]
    unfold combinedScore CONTENT_WEIGHT METADATA_WEIGHT
    ring
  · have hs := List.sorted_insertionSort byScoreDesc (scoredCandidates t cands)
    unfold find_similar_books
    exact List.Pairwise.sublist (pySlice_sublist _ _) hs
  · unfold find_similar_books
    rw [pySlice_eq_take, if_pos hn, List.length_take,
      (List.perm_insertionSort byScoreDesc _).length_eq]
    unfold scoredCandidates
    rw [List.length_map]

/-- Witness for C3: the length equation at a concrete target, pool and
count. -/
theorem find_similar_books_spec_witness :
    (find_similar_books bkOne [bkTwo] 1).length
      = min (1 : ℤ).toNat
          (([bkTwo] : List Book).filter (fun c => !(c.id = bkOne.id : Bool))).length :=
  (find_similar_books_spec bkOne [bkTwo] 1 (by decide)).2.2

/-- Inserting an element whose score equals `q` into a list prepends it
to the `q`-score fragment: every element the insertion skips has a
strictly larger score. -/
theorem filter_orderedInsert_of_eq {α : Type} (q : ℚ) (a : α × ℚ)
    (l : List (α × ℚ)) (ha : a.2 = q) :
    (List.orderedInsert byScoreDesc a l).filter (fun p => (p.2 = q : Bool))
      = a :: l.filter (fun p => (p.2 = q : Bool)) := by
  rw [List.orderedInsert_eq_take_drop, List.filter_append]
  have htw : (List.takeWhile (fun b => decide ¬ byScoreDesc a b) l).filter
      (fun p => (p.2 = q : Bool)) = [] := by
    rw [List.filter_eq_nil_iff]
    intro p hp hq
    have h1 := List.mem_takeWhile_imp hp
    simp only [decide_eq_true_eq] at h1 hq
    exact h1 (byScoreDesc.eq_def a p ▸ le_of_eq (hq.trans ha.symm))
  rw [htw, List.nil_append, List.filter_cons_of_pos (by simp [ha])]
  congr 1
  conv_rhs => rw [← List.takeWhile_append_dropWhile
    (fun b => decide ¬ byScoreDesc a b) l, List.filter_append, htw, List.nil_append]

/-- Inserting an element whose score differs from `q` leaves the
`q`-score fragment unchanged. -/
theorem filter_orderedInsert_of_ne {α : Type} (q : ℚ) (a : α × ℚ)
    (l : List (α × ℚ)) (ha : ¬ a.2 = q) :
    (List.orderedInsert byScoreDesc a l).filter (fun p => (p.2 = q : Bool))
      = l.filter (fun p => (p.2 = q : Bool)) := by
  rw [List.orderedInsert_eq_take_drop, List.filter_append,
    List.filter_cons_of_neg (by simp [ha])]
  conv_rhs => rw [← List.takeWhile_append_dropWhile
    (fun b => decide ¬ byScoreDesc a b) l, List.filter_append]

/-- Stability of the descending insertion sort: restricted to any fixed
score, the sorted list is the original list. -/
theorem filter_insertionSort_byScore {α : Type} (q : ℚ) (l : List (α × ℚ)) :
    (List.insertionSort byScoreDesc l).filter (fun p => (p.2 = q : Bool))
      = l.filter (fun p => (p.2 = q : Bool)) := by
  induction l with
  | nil => rfl
  | cons a l ih =>
    show (List.orderedInsert byScoreDesc a
        (List.insertionSort byScoreDesc l)).filter (fun p => (p.2 = q : Bool)) = _
    by_cases ha : a.2 = q
    · rw [filter_orderedInsert_of_eq q a _ ha, ih,
        List.filter_cons_of_pos (by simp [ha])]
    · rw [filter_orderedInsert_of_ne q a _ ha, ih,
        List.filter_cons_of_neg (by simp [ha])]

/-- Filtering an initial segment yields an initial segment of the
filtered list. -/
theorem filter_take_eq_take_filter {α : Type} (P : α → Bool) (l : List α)
    (k : ℕ) :
    (l.take k).filter P = (l.filter P).take ((l.take k).filter P).length := by
  have h : l.filter P = (l.take k).filter P ++ (l.drop k).filter P := by
    rw [← List.filter_append, List.take_append_drop]
  rw [h, List.take_left]

/-- C8: both ranking steps sort stably.  Restricted to any fixed score
`q`, the output of `find_similar_books` is an initial segment of the
`q`-scored entries in candidate order, and the ranked list of
`get_recommendations` keeps exactly the `q`-scored eligible entries in
candidate order. -/
theorem ranking_sorts_stably :
    (∀ (t : Book) (cands : List Book) (n : ℤ) (q : ℚ), ∃ m,
        (find_similar_books t cands n).filter (fun p => (p.2 = q : Bool))
          = ((scoredCandidates t cands).filter (fun p => (p.2 = q : Bool))).take m)
      ∧ ∀ (ub cands : List Book) (q : ℚ),
          (rankedCandidates ub cands).filter (fun p => (p.2 = q : Bool))
            = (eligibleScored ub cands).filter (fun p => (p.2 = q : Bool)) := by
  constructor
  · intro t cands n q
    unfold find_similar_books
    rw [pySlice_eq_take]
    exact ⟨_, by rw [filter_take_eq_take_filter, filter_insertionSort_byScore]⟩
  · intro ub cands q
    exact filter_insertionSort_byScore q (eligibleScored ub cands)

/-- A guarded weighted Jaccard term lies between 0 and its weight. -/
theorem jaccard_term_bounds (w : ℚ) (hw : 0 ≤ w) (s1 s2 : Finset String) :
    0 ≤ (if s1.Nonempty ∧ s2.Nonempty then
          w * ((s1 ∩ s2).card : ℚ) / (max (s1 ∪ s2).card 1 : ℕ) else 0)
      ∧ (if s1.Nonempty ∧ s2.Nonempty then
          w * ((s1 ∩ s2).card : ℚ) / (max (s1 ∪ s2).card 1 : ℕ) else 0) ≤ w := by
  split
  · have hd0 : (0 : ℚ) < ((max (s1 ∪ s2).card 1 : ℕ) : ℚ) := by
      have h1 : (1 : ℕ) ≤ max (s1 ∪ s2).card 1 := le_max_right _ _
      exact_mod_cast Nat.lt_of_lt_of_le Nat.zero_lt_one h1
    have hle : ((s1 ∩ s2).card : ℚ) ≤ ((max (s1 ∪ s2).card 1 : ℕ) : ℚ) := by
      have h1 : (s1 ∩ s2).card ≤ (s1 ∪ s2).card :=
        Finset.card_le_card Finset.inter_subset_union
      exact_mod_cast h1.trans (le_max_left _ _)
    constructor
    · exact div_nonneg (mul_nonneg hw (Nat.cast_nonneg _)) hd0.le
    · rw [div_le_iff₀ hd0]
      exact mul_le_mul_of_nonneg_left hle hw
  · exact ⟨le_refl 0, hw⟩

/-- The guarded rating-closeness term lies between 0 and 0.2 when both
ratings respect the documented [0, 5] domain. -/
theorem rating_term_bounds (r1 r2 : ℚ) (h1a : 0 ≤ r1) (h1b : r1 ≤ 5)
    (h2a : 0 ≤ r2) (h2b : r2 ≤ 5) :
    0 ≤ (if r1 ≠ 0 ∧ r2 ≠ 0 then 0.2 * (1 - |r1 - r2| / 5) else 0)
      ∧ (if r1 ≠ 0 ∧ r2 ≠ 0 then 0.2 * (1 - |r1 - r2| / 5) else 0) ≤ 0.2 := by
  split
  · have habs : |r1 - r2| ≤ 5 := abs_le.mpr ⟨by linarith, by linarith⟩
    have habs0 : 0 ≤ |r1 - r2| := abs_nonneg _
    constructor <;> nlinarith
  · norm_num

/-- The guarded page-count-closeness term lies between 0 and 0.1 when
both page counts are non-negative. -/
theorem length_term_bounds (p1 p2 : ℚ) (h1 : 0 ≤ p1) (h2 : 0 ≤ p2) :
    0 ≤ (if p1 ≠ 0 ∧ p2 ≠ 0 then 0.1 * (1 - |p1 - p2| / max p1 p2) else 0)
      ∧ (if p1 ≠ 0 ∧ p2 ≠ 0 then 0.1 * (1 - |p1 - p2| / max p1 p2) else 0)
        ≤ 0.1 := by
  split
  · rename_i hne
    have hp1 : 0 < p1 := lt_of_le_of_ne h1 (Ne.symm hne.1)
    have hp2 : 0 < p2 := lt_of_le_of_ne h2 (Ne.symm hne.2)
    have hm : 0 < max p1 p2 := lt_max_of_lt_left hp1
    have habs : |p1 - p2| ≤ max p1 p2 := by
      have hl := le_max_left p1 p2
      have hr := le_max_right p1 p2
      exact abs_le.mpr ⟨by linarith, by linarith⟩
    have hq0 : 0 ≤ |p1 - p2| / max p1 p2 := div_nonneg (abs_nonneg _) hm.le
    have hq1 : |p1 - p2| / max p1 p2 ≤ 1 := (div_le_one hm).mpr habs
    constructor <;> nlinarith
  · norm_num

/-- The `max(..., 1)` guard of the code coincides with the
specification's plain Jaccard denominator whenever the term is included
at all, because a non-empty union has positive cardinality. -/
theorem jaccard_max_guard (w : ℚ) (s1 s2 : Finset String) :
    (if s1.Nonempty ∧ s2.Nonempty then
        w * ((s1 ∩ s2).card : ℚ) / (max (s1 ∪ s2).card 1 : ℕ) else 0)
      = (if s1.Nonempty ∧ s2.Nonempty then
          w * ((s1 ∩ s2).card : ℚ) / ((s1 ∪ s2).card : ℕ) else 0) := by
  split
  · rename_i h
    have hpos : 1 ≤ (s1 ∪ s2).card := Finset.card_pos.mpr h.1.inl
    rw [Nat.max_eq_left hpos]
  · rfl

/-- C5: for ratings in [0, 5] and non-negative page counts the metadata
similarity lies in [0, 1], and it equals the sum of the four sub-scores
exactly as the specification's table states them (absent fields
contributing 0 through the guards). -/
theorem metadata_similarity_range_and_formula (b1 b2 : Book)
    (hr1a : 0 ≤ b1.average_rating) (hr1b : b1.average_rating ≤ 5)
    (hr2a : 0 ≤ b2.average_rating) (hr2b : b2.average_rating ≤ 5)
    (hp1 : 0 ≤ b1.page_count) (hp2 : 0 ≤ b2.page_count) :
    0 ≤ calculate_metadata_similarity b1 b2
      ∧ calculate_metadata_similarity b1 b2 ≤ 1
      ∧ calculate_metadata_similarity b1 b2
          = specCategoryTerm b1 b2 + specAuthorTerm b1 b2
            + specRatingTerm b1 b2 + specLengthTerm b1 b2 := by
  obtain ⟨hc0, hc1⟩ :=
    jaccard_term_bounds 0.4 (by norm_num) b1.categories.toFinset b2.categories.toFinset
  obtain ⟨ha0, ha1⟩ :=
    jaccard_term_bounds 0.3 (by norm_num) b1.authors.toFinset b2.authors.toFinset
  obtain ⟨hr0, hr1⟩ := rating_term_bounds _ _ hr1a hr1b hr2a hr2b
  obtain ⟨hl0, hl1⟩ := length_term_bounds _ _ hp1 hp2
  refine ⟨?_, ?_, ?_⟩
  · unfold calculate_metadata_similarity
    linarith
  · unfold calculate_metadata_similarity
    linarith
  · unfold calculate_metadata_similarity specCategoryTerm specAuthorTerm
      specRatingTerm specLengthTerm
    rw [jaccard_max_guard 0.4, jaccard_max_guard 0.3]

/-- Witness for C5 at the two example books of the module, whose
metadata similarity is the specification's worked example. -/
theorem metadata_similarity_range_witness :
    0 ≤ calculate_metadata_similarity bkHobbit bkLotr
      ∧ calculate_metadata_similarity bkHobbit bkLotr ≤ 1
      ∧ calculate_metadata_similarity bkHobbit bkLotr
          = specCategoryTerm bkHobbit bkLotr + specAuthorTerm bkHobbit bkLotr
            + specRatingTerm bkHobbit bkLotr + specLengthTerm bkHobbit bkLotr :=
  metadata_similarity_range_and_formula bkHobbit bkLotr
    (by norm_num [bkHobbit]) (by norm_num [bkHobbit])
    (by norm_num [bkLotr]) (by norm_num [bkLotr])
    (by norm_num [bkHobbit]) (by norm_num [bkLotr])

/-- The metadata similarity is symmetric: each guard and each sub-score
is invariant under swapping the two books. -/
theorem metadata_similarity_comm (b1 b2 : Book) :
    calculate_metadata_similarity b1 b2 = calculate_metadata_similarity b2 b1 := by
  unfold calculate_metadata_similarity
  have h1 : (if b1.categories.toFinset.Nonempty ∧ b2.categories.toFinset.Nonempty then
        0.4 * ((b1.categories.toFinset ∩ b2.categories.toFinset).card : ℚ) /
          (max (b1.categories.toFinset ∪ b2.categories.toFinset).card 1 : ℕ)
      else 0)
      = (if b2.categories.toFinset.Nonempty ∧ b1.categories.toFinset.Nonempty then
        0.4 * ((b2.categories.toFinset ∩ b1.categories.toFinset).card : ℚ) /
          (max (b2.categories.toFinset ∪ b1.categories.toFinset).card 1 : ℕ)
      else 0) :=
    if_congr and_comm (by rw [Finset.inter_comm, Finset.union_comm]) rfl
  have h2 : (if b1.authors.toFinset.Nonempty ∧ b2.authors.toFinset.Nonempty then
        0.3 * ((b1.authors.toFinset ∩ b2.authors.toFinset).card : ℚ) /
          (max (b1.authors.toFinset ∪ b2.authors.toFinset).card 1 : ℕ)
      else 0)
      = (if b2.authors.toFinset.Nonempty ∧ b1.authors.toFinset.Nonempty then
        0.3 * ((b2.authors.toFinset ∩ b1.authors.toFinset).card : ℚ) /
          (max (b2.authors.toFinset ∪ b1.authors.toFinset).card 1 : ℕ)
      else 0) :=
    if_congr and_comm (by rw [Finset.inter_comm, Finset.union_comm]) rfl
  have h3 : (if b1.average_rating ≠ 0 ∧ b2.average_rating ≠ 0 then
        0.2 * (1 - |b1.average_rating - b2.average_rating| / 5) else 0)
      = (if b2.average_rating ≠ 0 ∧ b1.average_rating ≠ 0 then
        0.2 * (1 - |b2.average_rating - b1.average_rating| / 5) else 0) :=
    if_congr and_comm (by rw [abs_sub_comm]) rfl
  have h4 : (if b1.page_count ≠ 0 ∧ b2.page_count ≠ 0 then
        0.1 * (1 - |b1.page_count - b2.page_count| /
          max b1.page_count b2.page_count) else 0)
      = (if b2.page_count ≠ 0 ∧ b1.page_count ≠ 0 then
        0.1 * (1 - |b2.page_count - b1.page_count| /
          max b2.page_count b1.page_count) else 0) :=
    if_congr and_comm (by rw [abs_sub_comm, max_comm]) rfl
  rw [h1, h2, h3, h4]

/-- The pair-corpus term counts are invariant under swapping the two
documents. -/
theorem count_swap (A B : List String) :
    (fun t => List.count t (A ++ B)) = fun t => List.count t (B ++ A) := by
  funext t
  rw [List.count_append, List.count_append, Nat.add_comm]

/-- The fitted vocabulary is invariant under swapping the two documents:
the selection key is symmetric in the pair and the result is a sorted
deduplicated list. -/
theorem vocabOf_comm (A B : List String) : vocabOf A B = vocabOf B A := by
  unfold vocabOf
  rw [count_swap A B]
  have hperm : ((A ++ B).dedup).Perm ((B ++ A).dedup) :=
    List.Perm.dedup List.perm_append_comm
  have hs :
      List.insertionSort (featPref fun t => List.count t (B ++ A)) ((A ++ B).dedup)
        = List.insertionSort (featPref fun t => List.count t (B ++ A)) ((B ++ A).dedup) :=
    List.eq_of_perm_of_sorted
      (((List.perm_insertionSort _ _).trans hperm).trans
        (List.perm_insertionSort _ _).symm)
      (List.sorted_insertionSort _ _) (List.sorted_insertionSort _ _)
  rw [hs]

/-- Dot products commute. -/
theorem dotQ_comm (v w : List ℚ) : dotQ v w = dotQ w v := by
  unfold dotQ
  rw [List.zipWith_comm_of_comm (· * ·) mul_comm]

/-- The modelled cosine is symmetric. -/
theorem qcosSq_comm (v w : List ℚ) : qcosSq v w = qcosSq w v := by
  unfold qcosSq
  exact if_congr or_comm rfl
    (by rw [dotQ_comm v w, mul_comm (dotQ v v) (dotQ w w)])

/-- The content similarity is symmetric: the empty-vocabulary guard, the
fitted vocabulary and the cosine all commute with swapping the books. -/
theorem content_similarity_comm (b1 b2 : Book) :
    calculate_content_similarity b1 b2 = calculate_content_similarity b2 b1 := by
  unfold calculate_content_similarity
  refine if_congr and_comm rfl ?_
  rw [vocabOf_comm (docNgrams (get_combined_text b2)) (docNgrams (get_combined_text b1))]
  exact qcosSq_comm _ _

/-- C9: both pairwise scorers are symmetric in their two book
arguments. -/
theorem similarity_symmetric (b1 b2 : Book) :
    calculate_metadata_similarity b1 b2 = calculate_metadata_similarity b2 b1
      ∧ calculate_content_similarity b1 b2 = calculate_content_similarity b2 b1 :=
  ⟨metadata_similarity_comm b1 b2, content_similarity_comm b1 b2⟩

/-- A dot product with a left factor made of zeros vanishes. -/
theorem dotQ_zero_left : ∀ (v w : List ℚ), (∀ x ∈ v, x = 0) → dotQ v w = 0
  | [], _, _ => rfl
  | _ :: _, [], _ => rfl
  | a :: v, b :: w, h => by
    have ha : a = 0 := h a (List.mem_cons_self a v)
    have hrec := dotQ_zero_left v w (fun x hx => h x (List.mem_cons_of_mem a hx))
    show (List.zipWith (· * ·) (a :: v) (b :: w)).sum = 0
    rw [List.zipWith_cons_cons, List.sum_cons, ha, zero_mul, zero_add]
    exact hrec

/-- The count vector of the empty document is all zeros. -/
theorem countVec_nil_zero (V : List String) : ∀ x ∈ countVec V [], x = 0 := by
  intro x hx
  obtain ⟨t, -, rfl⟩ := List.mem_map.mp hx
  simp [List.count_nil]

/-- If the first document has no n-grams the content similarity is 0,
whether the vectorizer fails (both documents empty) or returns a zero
row. -/
theorem content_zero_of_left_nil (b1 b2 : Book)
    (h1 : docNgrams (get_combined_text b1) = []) :
    calculate_content_similarity b1 b2 = 0 := by
  unfold calculate_content_similarity
  split
  · rfl
  · rw [h1]
    unfold qcosSq
    rw [if_pos (Or.inl (dotQ_zero_left _ _ (countVec_nil_zero _)))]

/-- If the second document has no n-grams the content similarity is 0. -/
theorem content_zero_of_right_nil (b1 b2 : Book)
    (h2 : docNgrams (get_combined_text b2) = []) :
    calculate_content_similarity b1 b2 = 0 := by
  rw [content_similarity_comm]
  exact content_zero_of_left_nil b2 b1 h2

/-- An empty combined text yields no n-grams. -/
theorem docNgrams_empty_text : docNgrams (String.mk []) = [] := by
  have ht : tokenize (String.mk []) = [] := by
    unfold tokenize
    rw [show (String.mk []).data.map Char.toLower = [] from rfl, splitRuns]
    rfl
  unfold docNgrams filteredTokens
  rw [ht]
  rfl

/-- A token stream with no tokens after stop-word removal yields no
n-grams. -/
theorem docNgrams_of_no_tokens {s : String} (h : filteredTokens s = []) :
    docNgrams s = [] := by
  unfold docNgrams
  rw [h]
  rfl

/-- C6: the content similarity degrades to 0 — it does not raise —
whenever either combined text is empty or the vocabulary is empty after
stop-word removal; and no such failure aborts the ranking pass: the
scored list always covers every non-self candidate. -/
theorem content_similarity_degrades (b1 b2 : Book)
    (h : get_combined_text b1 = String.mk []
        ∨ get_combined_text b2 = String.mk []
        ∨ (filteredTokens (get_combined_text b1) = []
            ∧ filteredTokens (get_combined_text b2) = [])) :
    calculate_content_similarity b1 b2 = 0
      ∧ ∀ (t : Book) (cs : List Book),
          (scoredCandidates t cs).map Prod.fst
            = cs.filter (fun c => !(c.id = t.id : Bool)) := by
  constructor
  · rcases h with h | h | ⟨h1, -⟩
    · exact content_zero_of_left_nil b1 b2 (h ▸ docNgrams_empty_text)
    · exact content_zero_of_right_nil b1 b2 (h ▸ docNgrams_empty_text)
    · exact content_zero_of_left_nil b1 b2 (docNgrams_of_no_tokens h1)
  · intro t cs
    unfold scoredCandidates
    rw [List.map_map]
    exact List.map_id _

/-- Witness for C6: a concrete pair with an empty combined text, where
the similarity evaluates to 0. -/
theorem content_similarity_degrades_witness :
    calculate_content_similarity bkOne bkTwo = 0 :=
  (content_similarity_degrades bkOne bkTwo (Or.inl rfl)).1

/-- In a pool with pairwise-distinct ids, filtering for a member's id
yields exactly that member. -/
theorem filter_id_eq_single {cands : List Book} {c : Book}
    (hnd : (cands.map Book.id).Nodup) (hc : c ∈ cands) :
    cands.filter (fun x => (x.id = c.id : Bool)) = [c] := by
  induction cands with
  | nil => cases hc
  | cons a rest ih =>
    rw [List.map_cons, List.nodup_cons] at hnd
    rcases List.mem_cons.mp hc with hca | hmem
    · subst hca
      rw [List.filter_cons_of_pos (by simp)]
      have hrest : rest.filter (fun x => (x.id = c.id : Bool)) = [] := by
        rw [List.filter_eq_nil_iff]
        intro x hx hxe
        simp only [decide_eq_true_eq] at hxe
        exact hnd.1 (hxe ▸ List.mem_map_of_mem Book.id hx)
      rw [hrest]
    · have hane : ¬ a.id = c.id := fun he =>
        hnd.1 (he ▸ List.mem_map_of_mem Book.id hmem)
      rw [List.filter_cons_of_neg (by simpa using hane)]
      exact ih hnd.2 hmem

/-- With the requested count equal to the pool size, `find_similar_books`
returns the whole sorted scored list. -/
theorem find_similar_full (h : Book) (cands : List Book) :
    find_similar_books h cands (cands.length : ℤ)
      = List.insertionSort byScoreDesc (scoredCandidates h cands) := by
  unfold find_similar_books
  rw [pySlice_eq_take, if_pos (Int.natCast_nonneg _), Int.toNat_natCast]
  apply List.take_of_length_le
  rw [(List.perm_insertionSort byScoreDesc _).length_eq]
  unfold scoredCandidates
  rw [List.length_map]
  exact List.length_filter_le _ _

/-- Every recommended book received at least one score contribution. -/
theorem mem_recommendations_key (ub cands : List Book) (n : ℤ) (b : Book)
    (hb : b ∈ get_recommendations ub cands n) :
    b.id ∈ scoreKeys ub cands := by
  unfold get_recommendations at hb
  obtain ⟨p, hp, rfl⟩ := List.mem_map.mp hb
  have h1 : p ∈ rankedCandidates ub cands := (pySlice_sublist _ _).subset hp
  have h2 : p ∈ eligibleScored ub cands :=
    (List.perm_insertionSort byScoreDesc _).mem_iff.mp h1
  unfold eligibleScored at h2
  obtain ⟨b', hb', rfl⟩ := List.mem_map.mp h2
  simpa using (List.mem_filter.mp hb').2

/-- For a one-element history and a duplicate-free pool, the accumulated
score of every non-self candidate is exactly its combined score: the
single contribution divided by the history length 1. -/
theorem scoresOf_single_history (h c : Book) (cands : List Book)
    (hnd : (cands.map Book.id).Nodup) (hc : c ∈ cands) (hch : ¬ c.id = h.id) :
    scoresOf [h] cands c.id = combinedScore h c := by
  unfold scoresOf historyContributions
  rw [List.flatMap_cons, List.flatMap_nil, List.append_nil, find_similar_full]
  simp only [List.filter_map, List.map_map]
  rw [List.Perm.sum_eq (List.Perm.map _ (List.Perm.filter _
    (List.perm_insertionSort byScoreDesc (scoredCandidates h cands))))]
  unfold scoredCandidates
  simp only [List.filter_map, List.map_map]
  rw [List.filter_filter]
  simp only [Function.comp_apply]
  have hpred : ∀ x ∈ cands,
      ((x.id = c.id : Bool) && !(x.id = h.id : Bool)) = (x.id = c.id : Bool) := by
    intro x hxmem
    by_cases hx : x.id = c.id
    · simp [hx, hch]
    · simp [hx]
  rw [List.filter_congr hpred, filter_id_eq_single hnd hc]
  simp

/-- C7 (amended): for a single-book history over a pool with
pairwise-distinct ids (the data model's id-uniqueness invariant), the
accumulated score of each non-self candidate equals the combined score
`find_similar_books` assigns to it — the per-contribution division by
the history length 1 changes nothing — and only candidates that received
a contribution appear in the output. -/
theorem history_averaging (h : Book) (cands : List Book) (n : ℤ)
    (hnd : (cands.map Book.id).Nodup) :
    (∀ c ∈ cands, ¬ c.id = h.id → scoresOf [h] cands c.id = combinedScore h c)
      ∧ ∀ b ∈ get_recommendations [h] cands n, b.id ∈ scoreKeys [h] cands :=
  ⟨fun c hc hch => scoresOf_single_history h c cands hnd hc hch,
   fun b hb => mem_recommendations_key [h] cands n b hb⟩

/-- Witness for C7 at a concrete single-book history and singleton
pool. -/
theorem history_averaging_witness :
    scoresOf [bkH] [bkC] bkC.id = combinedScore bkH bkC :=
  (history_averaging bkH [bkC] 1 (by decide)).1 bkC (List.mem_singleton.mpr rfl)
    (by decide)

/-- C7 counterexample: with a candidate id occurring twice, the
accumulated score is the sum of two contributions (4/25 here) and no
longer the combined score `find_similar_books` assigns (2/25), refuting
the claim over arbitrary candidate lists. -/
theorem history_averaging_counterexample :
    ¬ scoresOf [bkH] [bkC, bkC] bkC.id = combinedScore bkH bkC := by
  have hcontent : calculate_content_similarity bkH bkC = 0 :=
    content_zero_of_left_nil bkH bkC
      (by rw [show get_combined_text bkH = String.mk [] from rfl]
          exact docNgrams_empty_text)
  have hmeta : calculate_metadata_similarity bkH bkC = 1/5 := by
    norm_num [calculate_metadata_similarity, bkH, bkC]
  have hs : combinedScore bkH bkC = 2/25 := by
    unfold combinedScore
    rw [hcontent, hmeta]
    norm_num [CONTENT_WEIGHT, METADATA_WEIGHT]
  have hsc : scoredCandidates bkH [bkC, bkC]
      = [(bkC, combinedScore bkH bkC), (bkC, combinedScore bkH bkC)] := rfl
  have hone : List.insertionSort byScoreDesc [(bkC, combinedScore bkH bkC)]
      = [(bkC, combinedScore bkH bkC)] := rfl
  have hsort : List.insertionSort byScoreDesc
        [(bkC, combinedScore bkH bkC), (bkC, combinedScore bkH bkC)]
      = [(bkC, combinedScore bkH bkC), (bkC, combinedScore bkH bkC)] := by
    show List.orderedInsert byScoreDesc (bkC, combinedScore bkH bkC)
        (List.insertionSort byScoreDesc [(bkC, combinedScore bkH bkC)]) = _
    rw [hone]
    unfold List.orderedInsert
    have hbb : byScoreDesc (bkC, combinedScore bkH bkC)
        (bkC, combinedScore bkH bkC) := le_refl _
    rw [if_pos hbb]
  have hfull : find_similar_books bkH [bkC, bkC]
        ((([bkC, bkC] : List Book).length : ℕ) : ℤ)
      = [(bkC, combinedScore bkH bkC), (bkC, combinedScore bkH bkC)] := by
    rw [find_similar_full, hsc, hsort]
  have hcontrib : historyContributions [bkH] [bkC, bkC]
      = [(bkC.id, combinedScore bkH bkC / (([bkH] : List Book).length : ℚ)),
         (bkC.id, combinedScore bkH bkC / (([bkH] : List Book).length : ℚ))] := by
    unfold historyContributions
    rw [List.flatMap_cons, List.flatMap_nil, List.append_nil, hfull]
    rfl
  unfold scoresOf
  rw [hcontrib, List.filter_cons_of_pos (by simp), List.filter_cons_of_pos (by simp),
    List.filter_nil, List.map_cons, List.map_cons, List.map_nil, List.sum_cons,
    List.sum_cons, List.sum_nil, hs]
  norm_num

/-- Word characters are not whitespace. -/
theorem pyIsSpace_of_word {c : Char} (h : pyIsWordChar c = true) :
    pyIsSpace c = false := by
  cases hs : pyIsSpace c with
  | false => rfl
  | true =>
    exfalso
    have hs' : c = ' ' ∨ c = '\t' ∨ c = '\n' ∨ c = '\r' ∨ c = '\x0b' ∨ c = '\x0c' := by
      simpa [pyIsSpace, or_assoc] using hs
    rcases hs' with h1 | h1 | h1 | h1 | h1 | h1 <;> subst h1 <;>
      exact absurd h (by decide)

/-- Substitution keeps word characters. -/
theorem substituteChar_of_word {c : Char} (h : pyIsWordChar c = true) :
    substituteChar c = c := by
  unfold substituteChar
  rw [if_pos (by simp [h])]

/-- After substitution, a character is whitespace exactly when the
original was not a word character. -/
theorem pyIsSpace_substituteChar (c : Char) :
    pyIsSpace (substituteChar c) = !pyIsWordChar c := by
  unfold substituteChar
  cases hw : pyIsWordChar c with
  | true => simp [hw, pyIsSpace_of_word hw]
  | false =>
    cases hs : pyIsSpace c with
    | true => simp [hw, hs]
    | false => simp [hw, hs, pyIsSpace]

/-- Equation: collapsing after a whitespace head. -/
theorem collapseWs_cons_of_space {c : Char} (hc : pyIsSpace c = true)
    (t : List Char) :
    collapseWs (c :: t) = ' ' :: collapseWs (t.dropWhile pyIsSpace) := by
  simp only [collapseWs]
  rw [if_pos hc]

/-- Equation: collapsing after a non-whitespace head. -/
theorem collapseWs_cons_of_not_space {c : Char} (hc : pyIsSpace c = false)
    (t : List Char) :
    collapseWs (c :: t) = c :: collapseWs t := by
  simp only [collapseWs]
  rw [if_neg (by simp [hc])]

/-- Equation: splitting runs, word head. -/
theorem splitRuns_cons_word {p : Char → Bool} {c : Char} (hc : p c = true)
    (t : List Char) :
    splitRuns p (c :: t)
      = (c :: t.takeWhile p) :: splitRuns p (t.dropWhile p) := by
  simp only [splitRuns]
  rw [if_pos hc]

/-- Equation: splitting runs, separator head. -/
theorem splitRuns_cons_not {p : Char → Bool} {c : Char} (hc : p c = false)
    (t : List Char) :
    splitRuns p (c :: t) = splitRuns p t := by
  simp only [splitRuns]
  rw [if_neg (by simp [hc])]

/-- Equation: splitting runs of the empty list. -/
theorem splitRuns_nil (p : Char → Bool) : splitRuns p [] = [] := by
  simp only [splitRuns]

/-- Equation: canonical form of the empty list. -/
theorem canonWs_nil : canonWs [] = [] := by
  simp only [canonWs]

/-- Equation: canonical form, word head. -/
theorem canonWs_cons_word {c : Char} (hc : pyIsWordChar c = true)
    (t : List Char) : canonWs (c :: t) = c :: canonWs t := by
  simp only [canonWs]
  rw [if_pos hc]

/-- Equation: canonical form, separator head. -/
theorem canonWs_cons_not {c : Char} (hc : pyIsWordChar c = false)
    (t : List Char) :
    canonWs (c :: t)
      = ' ' :: canonWs (t.dropWhile (fun x => !pyIsWordChar x)) := by
  simp only [canonWs]
  rw [if_neg (by simp [hc])]

/-- Substituting then collapsing reaches the canonical form: word
characters survive unchanged, every maximal non-word run becomes one
space. -/
theorem collapseWs_map_substituteChar : ∀ m : List Char,
    collapseWs (m.map substituteChar) = canonWs m
  | [] => by
    rw [List.map_nil, canonWs_nil]
    simp only [collapseWs]
  | c :: t => by
    rw [List.map_cons]
    cases hW : pyIsWordChar c with
    | true =>
      rw [substituteChar_of_word hW,
        collapseWs_cons_of_not_space (pyIsSpace_of_word hW),
        collapseWs_map_substituteChar t, canonWs_cons_word hW]
    | false =>
      have hs : pyIsSpace (substituteChar c) = true := by
        rw [pyIsSpace_substituteChar, hW]
        rfl
      rw [collapseWs_cons_of_space hs, canonWs_cons_not hW]
      have hdrop : (t.map substituteChar).dropWhile pyIsSpace
          = (t.dropWhile (fun x => !pyIsWordChar x)).map substituteChar := by
        rw [List.dropWhile_map]
        have hfun : (pyIsSpace ∘ substituteChar) = fun x => !pyIsWordChar x :=
          funext fun x => pyIsSpace_substituteChar x
        rw [hfun]
      rw [hdrop, collapseWs_map_substituteChar
        (t.dropWhile (fun x => !pyIsWordChar x))]
termination_by m => m.length
decreasing_by
  all_goals simp only [List.length_cons]
  all_goals first
    | exact Nat.lt_succ_of_le (List.Sublist.length_le (List.dropWhile_sublist _))
    | exact Nat.lt_succ_self _

/-- Strip is: drop leading whitespace, then drop trailing whitespace. -/
theorem stripWs_eq (l : List Char) :
    stripWs l = dropTrailingWs (l.dropWhile pyIsSpace) := rfl

/-- Dropping trailing whitespace commutes with a non-whitespace head. -/
theorem dropTrailingWs_cons_of_not_space {x : Char} (hx : pyIsSpace x = false)
    (Z : List Char) : dropTrailingWs (x :: Z) = x :: dropTrailingWs Z := by
  unfold dropTrailingWs
  rw [List.reverse_cons, List.dropWhile_append]
  by_cases hz : (Z.reverse.dropWhile pyIsSpace).isEmpty = true
  · rw [if_pos hz]
    rw [List.isEmpty_iff] at hz
    rw [hz, List.dropWhile_cons_of_neg (by simp [hx])]
    rfl
  · rw [if_neg hz, List.reverse_append]
    rfl

/-- Stripping with a non-whitespace head keeps the head and strips the
tail from the right. -/
theorem stripWs_cons_of_not_space {c : Char} (hc : pyIsSpace c = false)
    (X : List Char) : stripWs (c :: X) = c :: dropTrailingWs X := by
  rw [stripWs_eq, List.dropWhile_cons_of_neg (by simp [hc]),
    dropTrailingWs_cons_of_not_space hc]

/-- On a list with a non-whitespace head, right-stripping and full
stripping agree. -/
theorem dropTrailingWs_eq_stripWs_of_head {d : Char} {R : List Char}
    (hd : pyIsSpace d = false) :
    dropTrailingWs (d :: R) = stripWs (d :: R) := by
  rw [stripWs_cons_of_not_space hd, dropTrailingWs_cons_of_not_space hd]

/-- A leading space above an otherwise fully-trailing-whitespace list is
also stripped. -/
theorem dropTrailingWs_space_cons_of_nil {Z : List Char}
    (hz : dropTrailingWs Z = []) : dropTrailingWs (' ' :: Z) = [] := by
  unfold dropTrailingWs at *
  rw [List.reverse_eq_nil_iff] at hz
  rw [List.reverse_cons, List.dropWhile_append, if_pos (by simp [hz])]
  rfl

/-- A leading space above a list with non-whitespace content survives
right-stripping. -/
theorem dropTrailingWs_space_cons_of_ne {Z : List Char}
    (hz : ¬ dropTrailingWs Z = []) :
    dropTrailingWs (' ' :: Z) = ' ' :: dropTrailingWs Z := by
  unfold dropTrailingWs at *
  rw [List.reverse_eq_nil_iff] at hz
  rw [List.reverse_cons, List.dropWhile_append,
    if_neg (by simpa using hz), List.reverse_append]
  rfl

/-- Skipping a non-word prefix does not change the runs. -/
theorem splitRuns_dropWhile_not (p : Char → Bool) : ∀ t : List Char,
    splitRuns p (t.dropWhile (fun x => !p x)) = splitRuns p t
  | [] => rfl
  | c :: t => by
    cases hc : p c with
    | true =>
      rw [List.dropWhile_cons_of_neg (by simp [hc])]
    | false =>
      rw [List.dropWhile_cons_of_pos (by simp [hc]), splitRuns_cons_not hc,
        splitRuns_dropWhile_not p t]
termination_by t => t.length
decreasing_by
  · exact Nat.lt_succ_self _

/-- The head of a `dropWhile` result fails the predicate. -/
theorem dropWhile_head_false (p : Char → Bool) :
    ∀ (l : List Char) {e : Char} {u : List Char},
      l.dropWhile p = e :: u → p e = false
  | [], _, _, h => by exact absurd h (by simp)
  | c :: t, e, u, h => by
    cases hc : p c with
    | true =>
      rw [List.dropWhile_cons_of_pos hc] at h
      exact dropWhile_head_false p t h
    | false =>
      rw [List.dropWhile_cons_of_neg (by simp [hc])] at h
      injection h with h1 h2
      exact h1 ▸ hc

/-- Joining a run list whose first run is non-empty starts with that
run's head. -/
theorem joinRuns_cons_run (x : Char) (r : List Char) (rs : List (List Char)) :
    joinRuns ((x :: r) :: rs) = x :: joinRuns (r :: rs) := by
  cases rs <;> rfl

/-- Core equivalence: stripping the canonical form is exactly the word
runs joined by single spaces. -/
theorem stripWs_canonWs : ∀ l : List Char,
    stripWs (canonWs l) = joinRuns (splitRuns pyIsWordChar l)
  | [] => by
    rw [canonWs_nil, splitRuns_nil]
    rfl
  | c :: t => by
    cases hW : pyIsWordChar c with
    | false =>
      rw [canonWs_cons_not hW, splitRuns_cons_not hW,
        ← splitRuns_dropWhile_not pyIsWordChar t]
      rw [stripWs_eq, List.dropWhile_cons_of_pos (by rfl : pyIsSpace ' ' = true),
        ← stripWs_eq]
      exact stripWs_canonWs (t.dropWhile (fun x => !pyIsWordChar x))
    | true =>
      have hcs : pyIsSpace c = false := pyIsSpace_of_word hW
      cases t with
      | nil =>
        rw [canonWs_cons_word hW, canonWs_nil, splitRuns_cons_word hW,
          List.takeWhile_nil, List.dropWhile_nil, splitRuns_nil,
          stripWs_cons_of_not_space hcs]
        rfl
      | cons d t' =>
        cases hD : pyIsWordChar d with
        | true =>
          rw [canonWs_cons_word hW, stripWs_cons_of_not_space hcs,
            canonWs_cons_word hD,
            dropTrailingWs_eq_stripWs_of_head (pyIsSpace_of_word hD),
            ← canonWs_cons_word hD, stripWs_canonWs (d :: t'),
            splitRuns_cons_word hW, List.takeWhile_cons_of_pos hD,
            List.dropWhile_cons_of_pos hD, splitRuns_cons_word hD]
          simp only [joinRuns_cons_run]
        | false =>
          rw [canonWs_cons_word hW, canonWs_cons_not hD,
            stripWs_cons_of_not_space hcs, splitRuns_cons_word hW,
            List.takeWhile_cons_of_neg (by simp [hD]),
            List.dropWhile_cons_of_neg (by simp [hD]),
            splitRuns_cons_not hD, ← splitRuns_dropWhile_not pyIsWordChar t']
          have hkey := stripWs_canonWs (t'.dropWhile (fun x => !pyIsWordChar x))
          rcases hu : t'.dropWhile (fun x => !pyIsWordChar x) with _ | ⟨e, u'⟩
          · rw [canonWs_nil, splitRuns_nil]
            rfl
          · rw [hu] at hkey
            have hE : pyIsWordChar e = true := by
              have h1 := dropWhile_head_false (fun x => !pyIsWordChar x) t' hu
              simpa using h1
            have hEs : pyIsSpace e = false := pyIsSpace_of_word hE
            rw [canonWs_cons_word hE]
            have hne : ¬ dropTrailingWs (e :: canonWs u') = [] := by
              rw [dropTrailingWs_eq_stripWs_of_head hEs, ← canonWs_cons_word hE,
                hkey, splitRuns_cons_word hE, joinRuns_cons_run]
              exact List.cons_ne_nil _ _
            rw [dropTrailingWs_space_cons_of_ne hne,
              dropTrailingWs_eq_stripWs_of_head hEs, ← canonWs_cons_word hE,
              hkey, splitRuns_cons_word hE]
            rfl
termination_by l => l.length
decreasing_by
  all_goals first
    | exact Nat.lt_of_le_of_lt (List.Sublist.length_le (List.dropWhile_sublist _))
        (by simp only [List.length_cons]; omega)
    | (simp only [List.length_cons]; omega)

/-- The code's preprocessing equals the run characterisation built on
Python's `\w` word class (letters, digits, underscore). -/
theorem preprocess_text_described (s : String) :
    preprocess_text s = preprocessDescribed s := by
  unfold preprocess_text preprocessDescribed
  by_cases hs : s.isEmpty = true
  · rw [if_pos hs]
    have hd : s.data = [] := by
      rw [String.isEmpty_iff] at hs
      rw [hs]
    rw [hd, List.map_nil, splitRuns_nil]
    rfl
  · rw [if_neg hs]
    unfold preprocessCore
    rw [collapseWs_map_substituteChar, stripWs_canonWs]

/-- C2 (amended): `preprocess_text` behaves exactly as the claim states
except that the underscore, matched by Python's `\w`, is kept as a word
character instead of being replaced: for every string the result is the
maximal runs of letters, digits and underscores of the lower-cased input
joined by single spaces (equivalently: lower-case, replace every
character that is not a letter, digit, underscore or whitespace by a
space, collapse whitespace runs, trim), and empty input yields the empty
string without error. -/
theorem preprocess_text_spec :
    (∀ s : String, preprocess_text s = preprocessDescribed s)
      ∧ preprocess_text (String.mk []) = String.mk [] :=
  ⟨preprocess_text_described, rfl⟩

/-- C2 counterexample: on the underscore the code and the claimed
transformation disagree — the code keeps it (`\w` matches `_`), while
the claim's "letter, digit, or whitespace" wording replaces it by a
space that trimming then removes. -/
theorem preprocess_text_claim_counterexample :
    ¬ preprocess_text (String.mk ['_']) = preprocessClaimed (String.mk ['_']) := by
  have hdesc : preprocessDescribed (String.mk ['_']) = String.mk ['_'] := by
    unfold preprocessDescribed
    rw [show (String.mk ['_']).data.map Char.toLower = ['_'] from rfl,
      splitRuns_cons_word (by decide), List.takeWhile_nil, List.dropWhile_nil,
      splitRuns_nil]
    rfl
  have hclaim : preprocessClaimed (String.mk ['_']) = String.mk [] := by
    unfold preprocessClaimed
    rw [show (String.mk ['_']).data.map Char.toLower = ['_'] from rfl,
      splitRuns_cons_not (by decide), splitRuns_nil]
    rfl
  rw [preprocess_text_described, hdesc, hclaim]
  decide

end BookRec
